import Mathlib

/-!
Shallow embedding of `printful.py`: a batch script that groups spreadsheet
rows into products, uploads per-variant artwork with bounded retry, and
submits one product-creation request per group to a remote API.

Remote calls are modelled by oracles: a function giving the outcome of each
upload attempt, and a function giving the outcome of each product-creation
POST.  Python exceptions are modelled by the `PyErr` type and `Except`.
-/

/-- Python exception values, kept opaque except for the distinctions the
code can produce itself. -/
inductive PyErr where
  /-- `IndexError` from list indexing (`url.split(...)[1]`). -/
  | indexError
  /-- `KeyError` from dict indexing (`json["result"]`). -/
  | keyError
  /-- `TypeError` from indexing a non-dict value. -/
  | typeError
  /-- An opaque exception raised by the network library, tagged by a number. -/
  | exc (tag : Nat)
deriving DecidableEq

instance {ε α : Type} [DecidableEq ε] [DecidableEq α] : DecidableEq (Except ε α) :=
  fun a b =>
    match a, b with
    | .ok x, .ok y =>
      match decEq x y with
      | .isTrue h => .isTrue (h ▸ rfl)
      | .isFalse h => .isFalse (fun hc => h (Except.ok.inj hc))
    | .error x, .error y =>
      match decEq x y with
      | .isTrue h => .isTrue (h ▸ rfl)
      | .isFalse h => .isFalse (fun hc => h (Except.error.inj hc))
    | .ok _, .error _ => .isFalse (fun hc => Except.noConfusion hc)
    | .error _, .ok _ => .isFalse (fun hc => Except.noConfusion hc)

/-- Python's `needle in haystack` substring test on character lists
(for a non-empty needle, as at both use sites in `convert_drive_url`). -/
def pyContains : List Char → List Char → Bool
  | [], needle => needle.isEmpty
  | c :: rest, needle => needle.isPrefixOf (c :: rest) || pyContains rest needle

/-- Fuel-driven worker for `pysplit`; `cur` accumulates (reversed) the
characters of the part being built.  The fuel only bounds recursion depth:
`s.length` steps always suffice for a non-empty separator. -/
def pysplitF (sep : List Char) : Nat → List Char → List Char → List (List Char)
  | 0, s, cur => [cur.reverse ++ s]
  | fuel + 1, s, cur =>
    match s with
    | [] => [cur.reverse]
    | c :: rest =>
      if sep.isPrefixOf s then
        cur.reverse :: pysplitF sep fuel (s.drop sep.length) []
      else
        pysplitF sep fuel rest (c :: cur)

/-- Python's `s.split(sep)` for a non-empty separator: the maximal list of
parts obtained by cutting `s` at each non-overlapping, left-to-right
occurrence of `sep`. -/
def pysplit (sep s : List Char) : List (List Char) :=
  pysplitF sep (s.length + 1) s []

/-- Embedding of `convert_drive_url` (printful.py lines 16-23).
The guard tests membership of `"drive.google.com"` and `"file/d/"` (no
leading slash), while the split separator is `"/file/d/"` (with a leading
slash); `url.split("/file/d/")[1]` raises `IndexError` when the separator
is absent, which the result type records as `.error`. -/
def convert_drive_url (url : String) : Except PyErr String :=
  if pyContains url.toList "drive.google.com".toList
      && pyContains url.toList "file/d/".toList then
    match pysplit "/file/d/".toList url.toList with
    | _ :: part1 :: _ =>
      let file_id := (pysplit "/".toList part1).headD []
      .ok (String.mk ("https://drive.google.com/uc?export=download&id=".toList
            ++ file_id))
    | _ => .error .indexError
  else
    .ok url

/-! ## Image upload with retry (printful.py lines 26-50) -/

/-- Outcome of one attempt of the body of the retry loop: the POST to
`/files`, `raise_for_status`, and the `["result"]["id"]` extraction.
`.ok id` is a parsed file id; `.error e` is any exception raised by that
chain (network error, non-2xx status, malformed body). -/
abbrev UOut := Except PyErr Nat

/-- Observable behaviour of one `upload_image` call: the value returned or
exception raised, the number of POST attempts made, and the list of
`time.sleep` durations executed between attempts. -/
structure UploadRun where
  result : Except PyErr (Option Nat)
  calls : Nat
  sleeps : List Nat
deriving DecidableEq

/-- Embedding of the `for attempt in range(1, retries + 1)` loop of
`upload_image` (printful.py lines 32-50).  `f attempt` is the outcome of
the attempt's remote call; `remaining` counts the loop iterations still to
run (`retries - attempt + 1`), so the loop falls off the end (Python
returns `None`) when it reaches 0.  On failure with iterations left the
fixed `backoff` delay is slept and the loop retries; on failure in the
last iteration the exception is re-raised (`raise e`). -/
def uploadFrom (f : Nat → UOut) (backoff : Nat) : Nat → Nat → UploadRun
  | _, 0 => ⟨.ok none, 0, []⟩
  | attempt, remaining + 1 =>
    match f attempt with
    | .ok id => ⟨.ok (some id), 1, []⟩
    | .error e =>
      if remaining = 0 then
        ⟨.error e, 1, []⟩
      else
        let rest := uploadFrom f backoff (attempt + 1) remaining
        ⟨rest.result, rest.calls + 1, backoff :: rest.sleeps⟩

/-- Embedding of `upload_image` (printful.py lines 26-50): normalize the
reference via `convert_drive_url` (an exception there propagates with no
attempt made), then run the retry loop starting at attempt 1. -/
def upload_image (f : Nat → UOut) (image_url : String) (retries backoff : Nat) :
    UploadRun :=
  match convert_drive_url image_url with
  | .error e => ⟨.error e, 0, []⟩
  | .ok _direct_url => uploadFrom f backoff 1 retries

/-! ## Data model: rows, variant dicts, JSON-like payload values -/

/-- One input row, with the columns `process_file` reads.  `label` is
`none` for a missing cell or NaN (`pd.notna` fails) and `some s` for text
`s`; `price` models a retail-price column, which the code never reads. -/
structure Row where
  productName : String
  productId : Int
  variant : Int
  front : String
  back : String
  label : Option String
  price : Option String
deriving DecidableEq

/-- The grouping key `(row["PRODUCT NAME"], int(row["PRODUCT ID"]))`
(printful.py line 115). -/
def rowKey (r : Row) : String × Int := (r.productName, r.productId)

/-- The per-row dict appended to `variant_data` (printful.py lines
131-139).  File ids are `Option Nat` because the Python values can be
`None`; `retail_price` is optional because `create_product_from_template`
reads it with `.get("retail_price", "29.99")`. -/
structure Variant where
  variant_id : Int
  front_file_id : Option Nat
  back_file_id : Option Nat
  label_file_id : Option Nat
  retail_price : Option String
deriving DecidableEq

/-- Python/JSON values appearing in request payloads and response bodies. -/
inductive PyVal where
  | str (s : String)
  | int (n : Int)
  | bool (b : Bool)
  | list (l : List PyVal)
  | dict (entries : List (String × PyVal))
  | none

/-- Python dict indexing `v[k]`: `KeyError` when the key is absent,
`TypeError` when `v` is not a dict. -/
def pyIndex (v : PyVal) (k : String) : Except PyErr PyVal :=
  match v with
  | .dict entries =>
    match entries.lookup k with
    | some x => .ok x
    | Option.none => .error .keyError
  | _ => .error .typeError

/-- Two-level dict indexing `v[k1][k2]`. -/
def pyIndex2 (v : PyVal) (k1 k2 : String) : Except PyErr PyVal :=
  match pyIndex v k1 with
  | .ok w => pyIndex w k2
  | .error e => .error e

/-! ## Product submission (printful.py lines 53-98) -/

/-- A Python value holding a file id that may be `None`, as a JSON value. -/
def optIdVal : Option Nat → PyVal
  | Option.none => .none
  | some n => .int n

/-- Python truthiness of a file-id value (`if variant.get("label_file_id"):`,
printful.py line 65): `None` and the integer `0` are falsy. -/
def pyTruthyOptNat : Option Nat → Bool
  | Option.none => false
  | some n => n != 0

/-- The `files` list built for one variant (printful.py lines 61-66):
front and back entries, plus an `inside_label` entry appended exactly when
`variant.get("label_file_id")` is truthy. -/
def mkFiles (variant : Variant) : List PyVal :=
  let files := [.dict [("type", .str "front"), ("id", optIdVal variant.front_file_id)],
                .dict [("type", .str "back"), ("id", optIdVal variant.back_file_id)]]
  if pyTruthyOptNat variant.label_file_id then
    files ++ [.dict [("type", .str "inside_label"),
                     ("id", optIdVal variant.label_file_id)]]
  else
    files

/-- The dict appended to `sync_variants` for one variant (printful.py
lines 68-74); `retail_price` uses `.get("retail_price", "29.99")`. -/
def mkSyncVariant (variant : Variant) : PyVal :=
  .dict [("variant_id", .int variant.variant_id),
         ("retail_price", .str (variant.retail_price.getD "29.99")),
         ("files", .list (mkFiles variant))]

/-- The creation payload (printful.py lines 76-84). -/
def mkPayload (template_id : Int) (variant_data : List Variant)
    (product_name : String) : PyVal :=
  .dict [("sync_product",
           .dict [("name", .str "Test Product"),
                  ("is_visible", .bool true),
                  ("external_id", .str (product_name ++ "-" ++ toString template_id))]),
         ("sync_variants", .list (variant_data.map mkSyncVariant)),
         ("title", .str product_name)]

/-- The response object returned by `requests.post` when the call itself
does not raise: `status_ok` is whether `raise_for_status()` passes (it
raises `http_error` otherwise), `jsonBody` is the outcome of `.json()`
(which raises on a malformed body), and `text` is the raw body `.text`. -/
structure PResponse where
  status_ok : Bool
  http_error : PyErr
  jsonBody : Except PyErr PyVal
  text : String

/-- The body of the `try` block in `create_product_from_template`
(printful.py lines 90-94): `raise_for_status()`, then
`response.json()["result"]["id"]`; on success the decoded body is the
value the function returns. -/
def respCheck (resp : PResponse) : Except PyErr PyVal :=
  if resp.status_ok then
    match resp.jsonBody with
    | .ok body =>
      match pyIndex2 body "result" "id" with
      | .ok _product_id => .ok body
      | .error e => .error e
    | .error e => .error e
  else
    .error resp.http_error

/-- Observable behaviour of one `create_product_from_template` call:
`result` is the returned value (`.ok (some body)` on success, `.ok none`
for the `return None` sentinel) or `.error e` when an exception propagates
out of the function; `payload` is the payload sent with the POST;
`failLog` is `some response.text` when the except-branch logged the raw
response body. -/
structure CreateOut where
  result : Except PyErr (Option PyVal)
  payload : PyVal
  failLog : Option String

/-- Embedding of `create_product_from_template` (printful.py lines
53-98).  `postOut` is the outcome of `requests.post`: when the POST itself
raises, the exception propagates uncaught, because the call sits OUTSIDE
the `try` block (lines 87-89); only failures raised while checking and
parsing the returned response are caught, logged together with
`response.text`, and turned into the `None` sentinel. -/
def create_product_from_template (postOut : Except PyErr PResponse)
    (template_id : Int) (variant_data : List Variant) (product_name : String) :
    CreateOut :=
  let payload := mkPayload template_id variant_data product_name
  match postOut with
  | .error e => ⟨.error e, payload, Option.none⟩
  | .ok resp =>
    match respCheck resp with
    | .ok body => ⟨.ok (some body), payload, Option.none⟩
    | .error _e => ⟨.ok Option.none, payload, some resp.text⟩

/-! ## Batch driver (printful.py lines 101-151) -/

/-- Grouping step of `process_file` (printful.py lines 113-116): a
`defaultdict(list)` keyed by `rowKey`, modelled as an association list in
key insertion order; a repeated key appends to its existing entry. -/
def addRow (acc : List ((String × Int) × List Row)) (r : Row) :
    List ((String × Int) × List Row) :=
  match acc with
  | [] => [(rowKey r, [r])]
  | (k, g) :: rest =>
    if k = rowKey r then (k, g ++ [r]) :: rest
    else (k, g) :: addRow rest r

/-- The full grouping `grouped` (printful.py lines 113-116). -/
def groupRows (rows : List Row) : List ((String × Int) × List Row) :=
  rows.foldl addRow []

/-- Value of the group list at a key (the list a `defaultdict(list)` would
associate to it, `[]` when the key was never inserted). -/
def lookupGroup (k : String × Int) : List ((String × Int) × List Row) → List Row
  | [] => []
  | (k', g) :: rest => if k' = k then g else lookupGroup k rest

/-- Outcomes of the (up to three) upload calls made for one row: argument
0 selects the front upload, 1 the back upload, 2 the label upload; the
second argument is the attempt number within that upload's retry loop. -/
abbrev RowOracle := Nat → Nat → UOut

/-- The guard `label_url and pd.notna(label_url)` (printful.py line 127):
the cell must be present, not NaN, and a non-empty (truthy) string. -/
def labelPresent (row : Row) : Bool :=
  match row.label with
  | some s => s ≠ ""
  | Option.none => false

/-- The body of the per-row `try` block (printful.py lines 122-139):
upload front and back designs, upload the label when its URL is present
and truthy, and build the variant dict with the hardcoded retail price
`"29.99"`.  Any exception from the chain is the `.error` of the result. -/
def buildVariant (O : RowOracle) (row : Row) : Except PyErr Variant :=
  match (upload_image (O 0) row.front 3 5).result with
  | .error e => .error e
  | .ok front_id =>
    match (upload_image (O 1) row.back 3 5).result with
    | .error e => .error e
    | .ok back_id =>
      let label_res : Except PyErr (Option Nat) :=
        if labelPresent row then
          (upload_image (O 2) (row.label.getD "") 3 5).result
        else
          .ok Option.none
      match label_res with
      | .error e => .error e
      | .ok label_id =>
        .ok ⟨row.variant, front_id, back_id, label_id, some "29.99"⟩

/-- One console-visible step of the driver, tagged with the group index
`g` (and row index `j` within the group where applicable). -/
inductive Event where
  /-- The per-row except-branch: "Skipping variant ... due to error"
  (printful.py lines 140-144). -/
  | rowSkip (g j : Nat) (e : PyErr)
  /-- A product-creation POST attempted for group `g` with `payload`. -/
  | createCall (g : Nat) (payload : PyVal)
  /-- The submitter's except-branch log, carrying the raw response body
  (printful.py lines 96-97). -/
  | createFail (g : Nat) (text : String)
  /-- "Skipping product ... because no valid variants could be prepared"
  (printful.py lines 148-151). -/
  | groupSkip (g : Nat)

/-- The per-row loop of one group (printful.py lines 119-144): each row
either contributes its variant dict to `variant_data` (in order) or is
skipped with a logged `rowSkip` event. -/
def handleRowsFrom (O : Nat → RowOracle) (g : Nat) :
    Nat → List Row → List Variant × List Event
  | _, [] => ([], [])
  | j, r :: rest =>
    match buildVariant (O j) r with
    | .ok v =>
      let (vs, es) := handleRowsFrom O g (j + 1) rest
      (v :: vs, es)
    | .error e =>
      let (vs, es) := handleRowsFrom O g (j + 1) rest
      (vs, .rowSkip g j e :: es)

/-- The remote world: `up g j` gives the upload outcomes for row `j` of
group `g`, and `create g` gives the outcome of group `g`'s
product-creation POST. -/
structure WOracle where
  up : Nat → Nat → RowOracle
  create : Nat → Except PyErr PResponse

/-- Processing of one group (printful.py lines 118-151): run the per-row
loop, then `if variant_data:` submit once via
`create_product_from_template`, else log a group skip.  The second
component is `some e` when an exception escaped the group's processing
(only possible from the creation POST itself). -/
def handleGroup (O : WOracle) (g : Nat) (entry : (String × Int) × List Row) :
    List Event × Option PyErr :=
  let product_name := entry.1.1
  let template_id := entry.1.2
  let (variant_data, rowEvents) := handleRowsFrom (O.up g) g 0 entry.2
  if variant_data.isEmpty then
    (rowEvents ++ [.groupSkip g], Option.none)
  else
    let co := create_product_from_template (O.create g) template_id
                variant_data product_name
    let base := rowEvents ++ [.createCall g co.payload]
    match co.result, co.failLog with
    | .error e, _ => (base, some e)
    | .ok _, some t => (base ++ [.createFail g t], Option.none)
    | .ok _, Option.none => (base, Option.none)

/-- Observable behaviour of a whole run: the ordered event trace, and
`some e` when the run was aborted by an uncaught exception `e` (no later
group is processed after that). -/
structure RunOut where
  events : List Event
  aborted : Option PyErr

/-- The loop over `grouped.items()` (printful.py line 118), with `g` the
index of the first remaining group: groups are processed in order until
done or an uncaught exception aborts the run. -/
def processGroups (O : WOracle) : Nat → List ((String × Int) × List Row) → RunOut
  | _, [] => ⟨[], Option.none⟩
  | g, entry :: rest =>
    match handleGroup O g entry with
    | (es, some e) => ⟨es, some e⟩
    | (es, Option.none) =>
      let r := processGroups O (g + 1) rest
      ⟨es ++ r.events, r.aborted⟩

/-- Embedding of `process_file` (printful.py lines 101-151) from the
point where the rows have been loaded: group the rows, then process each
group in order. -/
def process_file (O : WOracle) (rows : List Row) : RunOut :=
  processGroups O 0 (groupRows rows)

/-! ## Observables over event traces -/

/-- Is this event a product-creation POST for group `g`? -/
def isCreateCallFor (g : Nat) : Event → Bool
  | .createCall g' _ => g' == g
  | _ => false

/-- Number of product-creation POSTs made for group `g` in a trace. -/
def countCreateCalls (g : Nat) (es : List Event) : Nat :=
  (es.filter (isCreateCallFor g)).length

/-- Is this event the skip log of group `g`? -/
def isGroupSkipFor (g : Nat) : Event → Bool
  | .groupSkip g' => g' == g
  | _ => false

/-- Number of "no valid variants" skip logs for group `g` in a trace. -/
def countGroupSkips (g : Nat) (es : List Event) : Nat :=
  (es.filter (isGroupSkipFor g)).length

/-- Group `g` reached its terminal step: either its creation POST was
attempted or its skip message was logged. -/
def groupTerminated (g : Nat) (es : List Event) : Bool :=
  es.any (fun e => isCreateCallFor g e || isGroupSkipFor g e)

/-- The sync-variant dict carries retail price `"29.99"`. -/
def svPriceOk (sv : PyVal) : Bool :=
  match pyIndex sv "retail_price" with
  | .ok (.str s) => s == "29.99"
  | _ => false

/-- Every sync variant of a creation payload carries price `"29.99"`. -/
def payloadPricesOk (p : PyVal) : Bool :=
  match pyIndex p "sync_variants" with
  | .ok (.list vs) => vs.all svPriceOk
  | _ => false

/-- Prices are `"29.99"` in every payload a trace event carries. -/
def eventPricesOk : Event → Bool
  | .createCall _ p => payloadPricesOk p
  | _ => true

/-- Every creation payload submitted during the run carries only the
retail price `"29.99"`. -/
def allPricesOk (run : RunOut) : Bool :=
  run.events.all eventPricesOk

/-- Does a files list contain an entry of the given `"type"`? -/
def hasFileType (fs : List PyVal) (t : String) : Bool :=
  fs.any fun f =>
    match pyIndex f "type" with
    | .ok (.str s) => s == t
    | _ => false

/-- The payload of the first product-creation POST in a trace. -/
def firstCreatePayload : List Event → Option PyVal
  | [] => Option.none
  | .createCall _ p :: _ => some p
  | _ :: rest => firstCreatePayload rest

/-- The files list of the `i`-th sync variant of a creation payload
(`[]` when the payload does not have that shape). -/
def payloadVariantFiles (p : PyVal) (i : Nat) : List PyVal :=
  match pyIndex p "sync_variants" with
  | .ok (.list vs) =>
    match vs.get? i with
    | some sv =>
      match pyIndex sv "files" with
      | .ok (.list fs) => fs
      | _ => []
    | Option.none => []
  | _ => []

/-- Concatenation of the event traces of the groups from index `g`
onward, with no abort in between: the trace of a run in which no group's
processing raises. -/
def groupEventsFrom (O : WOracle) : Nat → List ((String × Int) × List Row) → List Event
  | _, [] => []
  | g, entry :: rest => (handleGroup O g entry).1 ++ groupEventsFrom O (g + 1) rest

/-- A well-formed success response for scratch runs. -/
def okResp : PResponse :=
  ⟨true, .exc 0, .ok (.dict [("result", .dict [("id", .int 5)])]), "ok"⟩

/-- A non-2xx response with raw body `"boom"`: `raise_for_status` raises
`.exc 9`. -/
def badResp : PResponse :=
  ⟨false, .exc 9, .ok (.dict []), "boom"⟩

example :
    convert_drive_url "https://drive.google.com/file/d/ABC123/view"
      = .ok "https://drive.google.com/uc?export=download&id=ABC123" := by decide

example : convert_drive_url "plain.example/x" = .ok "plain.example/x" := by decide

example : convert_drive_url "drive.google.com/xfile/d/abc" = .error .indexError := by
  decide

example :
    upload_image (fun k => if k = 2 then .ok 9 else .error (.exc 0)) "u" 3 5
      = ⟨.ok (some 9), 2, [5]⟩ := by decide

example :
    upload_image (fun _ => .error (.exc 4)) "u" 3 5
      = ⟨.error (.exc 4), 3, [5, 5]⟩ := by decide

example :
    let O : WOracle := ⟨fun _ _ _ _ => .ok 1, fun _ => .ok okResp⟩
    let rows : List Row := [⟨"A", 1, 10, "u", "v", Option.none, Option.none⟩]
    countCreateCalls 0 (process_file O rows).events = 1
      ∧ (process_file O rows).aborted = Option.none
      ∧ allPricesOk (process_file O rows) = true := by decide

example :
    let O : WOracle := ⟨fun _ _ _ _ => .error (.exc 2), fun _ => .ok okResp⟩
    let rows : List Row := [⟨"A", 1, 10, "u", "v", Option.none, Option.none⟩]
    countCreateCalls 0 (process_file O rows).events = 0
      ∧ countGroupSkips 0 (process_file O rows).events = 1 := by decide

/-! ## Lemmas about the upload retry loop -/

/-- If attempts `a, ..., a+n-1` fail and attempt `a+n` succeeds with `v`,
and at least `n+1` iterations remain, the loop returns `v` after `n+1`
calls with `n` sleeps of the fixed `backoff`. -/
theorem uploadFrom_succeeds (f : Nat → UOut) (backoff : Nat) :
    ∀ (n a rem v : Nat), n < rem →
      (∀ k, a ≤ k → k < a + n → ∃ e, f k = .error e) →
      f (a + n) = .ok v →
      uploadFrom f backoff a rem
        = ⟨.ok (some v), n + 1, List.replicate n backoff⟩ := by
  intro n
  induction n with
  | zero =>
    intro a rem v hlt _hfail hsucc
    obtain ⟨m, rfl⟩ : ∃ m, rem = m + 1 := ⟨rem - 1, by omega⟩
    simp only [Nat.add_zero] at hsucc
    simp [uploadFrom, hsucc]
  | succ n ih =>
    intro a rem v hlt hfail hsucc
    obtain ⟨m, rfl⟩ : ∃ m, rem = m + 1 := ⟨rem - 1, by omega⟩
    obtain ⟨e, he⟩ := hfail a (Nat.le_refl a) (by omega)
    have hm : m ≠ 0 := by omega
    have hrest : uploadFrom f backoff (a + 1) m
        = ⟨.ok (some v), n + 1, List.replicate n backoff⟩ := by
      apply ih (a + 1) m v (by omega)
      · intro k hk1 hk2
        exact hfail k (by omega) (by omega)
      · have : a + 1 + n = a + (n + 1) := by omega
        rw [this]; exact hsucc
    simp [uploadFrom, he, hm, hrest, List.replicate_succ]

/-- One failing step of the retry loop with iterations still left: count
the call, record the sleep, and continue at the next attempt. -/
theorem uploadFrom_step_err (f : Nat → UOut) (backoff a m : Nat) (e : PyErr)
    (he : f a = .error e) (hm : m ≠ 0) :
    uploadFrom f backoff a (m + 1)
      = ⟨(uploadFrom f backoff (a + 1) m).result,
         (uploadFrom f backoff (a + 1) m).calls + 1,
         backoff :: (uploadFrom f backoff (a + 1) m).sleeps⟩ := by
  simp [uploadFrom, he, hm]

/-- If every attempt `a, ..., a+k` fails, the loop makes exactly `k+1`
calls, sleeps `k` times, and re-raises the last attempt's exception. -/
theorem uploadFrom_all_fail (f : Nat → UOut) (backoff : Nat) (errs : Nat → PyErr) :
    ∀ (k a : Nat),
      (∀ j, a ≤ j → j < a + (k + 1) → f j = .error (errs j)) →
      uploadFrom f backoff a (k + 1)
        = ⟨.error (errs (a + k)), k + 1, List.replicate k backoff⟩ := by
  intro k
  induction k with
  | zero =>
    intro a hfail
    have he : f a = .error (errs a) := hfail a (Nat.le_refl a) (by omega)
    simp [uploadFrom, he]
  | succ k ih =>
    intro a hfail
    have he : f a = .error (errs a) := hfail a (Nat.le_refl a) (by omega)
    have hrest := ih (a + 1) (fun j hj1 hj2 => hfail j (by omega) (by omega))
    rw [uploadFrom_step_err f backoff a (k + 1) (errs a) he (Nat.succ_ne_zero k),
        hrest]
    have harith : a + 1 + k = a + (k + 1) := by omega
    rw [harith]
    simp [List.replicate_succ]

/-- C3: if the remote upload call fails on the first `N-1` attempts and
succeeds on attempt `N ≤ retries`, `upload_image` returns the file id of
the successful attempt, makes exactly `N` calls, and sleeps exactly `N-1`
times, each for the constant `backoff` (no exponential growth). -/
theorem upload_image_succeeds_on_attempt_N (f : Nat → UOut) (url d : String)
    (retries backoff N v : Nat)
    (hconv : convert_drive_url url = .ok d)
    (h1 : 1 ≤ N) (hN : N ≤ retries)
    (hfail : ∀ k, 1 ≤ k → k < N → ∃ e, f k = .error e)
    (hsucc : f N = .ok v) :
    upload_image f url retries backoff
      = ⟨.ok (some v), N, List.replicate (N - 1) backoff⟩ := by
  unfold upload_image
  rw [hconv]
  have h : uploadFrom f backoff 1 retries
      = ⟨.ok (some v), (N - 1) + 1, List.replicate (N - 1) backoff⟩ := by
    apply uploadFrom_succeeds f backoff (N - 1) 1 retries v (by omega)
    · intro k hk1 hk2
      exact hfail k hk1 (by omega)
    · have : 1 + (N - 1) = N := by omega
      rw [this]; exact hsucc
  rw [h]
  have : N - 1 + 1 = N := by omega
  rw [this]

/-- Witness for C3 at a concrete input: two failures then success. -/
theorem upload_image_succeeds_on_attempt_N_witness :
    upload_image (fun k => if k = 3 then .ok 9 else .error (.exc 0)) "u" 4 5
      = ⟨.ok (some 9), 3, [5, 5]⟩ := by
  have h := upload_image_succeeds_on_attempt_N
    (fun k => if k = 3 then .ok 9 else .error (.exc 0)) "u" "u" 4 5 3 9
    (by decide) (by omega) (by omega)
    (fun k hk1 hk2 => ⟨.exc 0, by
      have : k ≠ 3 := by omega
      simp [this]⟩)
    (by decide)
  simpa using h

/-- Counterexample to C4 as stated: when every attempt fails, the entire
observable outcome of `upload_image` (raised error, call count, sleeps)
is identical for two distinct image references, so the produced fatal
error cannot identify (reference) the original image reference; it is
only the last attempt's failure, re-raised unchanged. -/
theorem upload_image_error_omits_reference :
    upload_image (fun _ => .error (.exc 3)) "a" 3 5
        = upload_image (fun _ => .error (.exc 3)) "b" 3 5
      ∧ ("a" : String) ≠ "b"
      ∧ (upload_image (fun _ => .error (.exc 3)) "a" 3 5).result
          = .error (.exc 3) := by decide

/-- C4 (amended): if the remote call fails on every attempt, exactly
`retries` attempts are made with `retries - 1` constant sleeps, and the
last attempt's failure is propagated unchanged (without the original
reference attached). -/
theorem upload_image_exhausted_raises_last (f : Nat → UOut) (url d : String)
    (retries backoff : Nat) (errs : Nat → PyErr)
    (hconv : convert_drive_url url = .ok d)
    (h1 : 1 ≤ retries)
    (hfail : ∀ k, 1 ≤ k → k ≤ retries → f k = .error (errs k)) :
    upload_image f url retries backoff
      = ⟨.error (errs retries), retries, List.replicate (retries - 1) backoff⟩ := by
  unfold upload_image
  rw [hconv]
  obtain ⟨k, rfl⟩ : ∃ k, retries = k + 1 := ⟨retries - 1, by omega⟩
  have h := uploadFrom_all_fail f backoff errs k 1
    (fun j hj1 hj2 => hfail j hj1 (by omega))
  rw [h]
  have harith : 1 + k = k + 1 := by omega
  rw [harith]
  simp

/-- Witness for the amended C4 at a concrete input: all three attempts
fail; the third attempt's error is raised after two sleeps. -/
theorem upload_image_exhausted_raises_last_witness :
    upload_image (fun k => .error (.exc k)) "u" 3 5
      = ⟨.error (.exc 3), 3, [5, 5]⟩ := by
  have h := upload_image_exhausted_raises_last
    (fun k => .error (.exc k)) "u" "u" 3 5 (fun k => .exc k)
    (by decide) (by omega) (fun k _ _ => rfl)
  simpa using h

/-- C5: on the concrete input `"drive.google.com/xfile/d/abc"` the
normalizer raises `IndexError` instead of returning the input unchanged:
the guard tests for the substring `"file/d/"` but the rewrite splits on
`"/file/d/"`, so an input containing the former without the latter passes
the guard and then indexes an out-of-range split element, contradicting
the documented "no failure mode, fall through unchanged" contract. -/
theorem convert_drive_url_guard_split_mismatch :
    convert_drive_url "drive.google.com/xfile/d/abc" = .error .indexError := by
  decide

/-! ## Lemmas about the grouping structure -/

/-- Inserting one row appends it to the list at its own key and leaves
every other key's list unchanged. -/
theorem lookupGroup_addRow (acc : List ((String × Int) × List Row)) (r : Row)
    (k : String × Int) :
    lookupGroup k (addRow acc r)
      = lookupGroup k acc ++ (if rowKey r = k then [r] else []) := by
  induction acc with
  | nil => simp [addRow, lookupGroup]
  | cons p rest ih =>
    obtain ⟨k', g⟩ := p
    simp only [addRow]
    by_cases h1 : k' = rowKey r
    · subst h1
      rw [if_pos rfl]
      by_cases h2 : rowKey r = k
      · simp [lookupGroup, h2]
      · simp [lookupGroup, h2]
    · rw [if_neg h1]
      by_cases h2 : k' = k
      · have hrk : ¬ rowKey r = k := fun h => h1 (h2.trans h.symm)
        simp [lookupGroup, h2, hrk]
      · simp [lookupGroup, h2, ih]

/-- After folding rows into an accumulator, each key's list is the
accumulator's list followed by exactly the rows bearing that key, in
input order. -/
theorem lookupGroup_foldl (rs : List Row) :
    ∀ (acc : List ((String × Int) × List Row)) (k : String × Int),
      lookupGroup k (rs.foldl addRow acc)
        = lookupGroup k acc ++ rs.filter (fun r => decide (rowKey r = k)) := by
  induction rs with
  | nil => intro acc k; simp
  | cons r rest ih =>
    intro acc k
    simp only [List.foldl_cons, ih, lookupGroup_addRow, List.filter_cons]
    by_cases h : rowKey r = k
    · simp [h]
    · simp [h]

/-- The group list at a key is exactly the input rows bearing that key,
in input order. -/
theorem lookupGroup_groupRows (rs : List Row) (k : String × Int) :
    lookupGroup k (groupRows rs) = rs.filter (fun r => decide (rowKey r = k)) := by
  have h := lookupGroup_foldl rs [] k
  simpa [groupRows, lookupGroup] using h

/-- Every row stored in a group bears that group's key (invariant of the
insertion fold). -/
theorem groupRows_key_inv (rs : List Row) :
    ∀ (acc : List ((String × Int) × List Row)),
      (∀ p ∈ acc, ∀ x ∈ p.2, rowKey x = p.1) →
      ∀ p ∈ rs.foldl addRow acc, ∀ x ∈ p.2, rowKey x = p.1 := by
  have step : ∀ (acc : List ((String × Int) × List Row)) (r : Row),
      (∀ p ∈ acc, ∀ x ∈ p.2, rowKey x = p.1) →
      ∀ p ∈ addRow acc r, ∀ x ∈ p.2, rowKey x = p.1 := by
    intro acc r
    induction acc with
    | nil =>
      intro _ p hp x hx
      simp [addRow] at hp
      subst hp
      simp at hx
      subst hx
      rfl
    | cons q rest ih =>
      intro hinv p hp x hx
      obtain ⟨k', g⟩ := q
      simp only [addRow] at hp
      by_cases h1 : k' = rowKey r
      · subst h1
        rw [if_pos rfl] at hp
        simp only [List.mem_cons] at hp
        rcases hp with hp | hp
        · subst hp
          simp only [List.mem_append, List.mem_singleton] at hx
          rcases hx with hx | hx
          · exact hinv (rowKey r, g) (by simp) x hx
          · subst hx; rfl
        · exact hinv p (by simp [hp]) x hx
      · rw [if_neg h1] at hp
        simp only [List.mem_cons] at hp
        rcases hp with hp | hp
        · subst hp
          exact hinv (k', g) (by simp) x hx
        · exact ih (fun q hq => hinv q (by simp [hq])) p hp x hx
  induction rs with
  | nil => intro acc hinv; simpa using hinv
  | cons r rest ih =>
    intro acc hinv
    simpa using ih (addRow acc r) (step acc r hinv)

/-- A key whose list is non-empty is an actual entry of the association
list, holding exactly that list. -/
theorem lookupGroup_mem (k : String × Int) :
    ∀ (l : List ((String × Int) × List Row)),
      lookupGroup k l ≠ [] → (k, lookupGroup k l) ∈ l := by
  intro l
  induction l with
  | nil => intro h; simp [lookupGroup] at h
  | cons p rest ih =>
    intro h
    obtain ⟨k', g⟩ := p
    by_cases hk : k' = k
    · have hg : lookupGroup k ((k', g) :: rest) = g := by simp [lookupGroup, hk]
      rw [hg]
      exact List.mem_cons.mpr (Or.inl (by rw [hk]))
    · have hg : lookupGroup k ((k', g) :: rest) = lookupGroup k rest := by
        simp [lookupGroup, hk]
      rw [hg] at h ⊢
      exact List.mem_cons.mpr (Or.inr (ih h))

/-- C6: two input rows land in one and the same group exactly when they
agree on the `(product name, product id)` key, regardless of their
positions in the input. -/
theorem groupRows_same_key_iff (rs : List Row) (r₁ r₂ : Row)
    (h₁ : r₁ ∈ rs) (h₂ : r₂ ∈ rs) :
    rowKey r₁ = rowKey r₂
      ↔ ∃ p, p ∈ groupRows rs ∧ r₁ ∈ p.2 ∧ r₂ ∈ p.2 := by
  constructor
  · intro hk
    refine ⟨(rowKey r₁, lookupGroup (rowKey r₁) (groupRows rs)), ?_, ?_, ?_⟩
    · apply lookupGroup_mem
      rw [lookupGroup_groupRows]
      intro hemp
      have : r₁ ∈ rs.filter (fun r => decide (rowKey r = rowKey r₁)) :=
        List.mem_filter.mpr ⟨h₁, by simp⟩
      rw [hemp] at this
      simp at this
    · rw [lookupGroup_groupRows]
      exact List.mem_filter.mpr ⟨h₁, by simp⟩
    · rw [lookupGroup_groupRows]
      exact List.mem_filter.mpr ⟨h₂, by simp [hk]⟩
  · intro ⟨p, hp, hm₁, hm₂⟩
    have inv := groupRows_key_inv rs [] (by simp)
    have e₁ := inv p hp r₁ hm₁
    have e₂ := inv p hp r₂ hm₂
    rw [e₁, e₂]

/-! ## Lemmas about the per-group and per-run processing -/

/-- Every event emitted by the per-row loop is a row-skip log of this
group. -/
theorem handleRows_events_rowSkips (O : Nat → RowOracle) (g : Nat) :
    ∀ (j : Nat) (rows : List Row),
      ∀ e ∈ (handleRowsFrom O g j rows).2, ∃ j' err, e = Event.rowSkip g j' err := by
  intro j rows
  induction rows generalizing j with
  | nil => intro e he; simp [handleRowsFrom] at he
  | cons r rest ih =>
    intro e he
    simp only [handleRowsFrom] at he
    cases hb : buildVariant (O j) r with
    | ok v =>
      rw [hb] at he
      exact ih (j + 1) e he
    | error err =>
      rw [hb] at he
      simp only [List.mem_cons] at he
      rcases he with he | he
      · exact ⟨j, err, he⟩
      · exact ih (j + 1) e he

/-- Row-skip logs are neither creation calls nor group skips, so they do
not contribute to either counter. -/
theorem rowSkips_no_create_no_skip (g' : Nat) (es : List Event)
    (h : ∀ e ∈ es, ∃ g j err, e = Event.rowSkip g j err) :
    List.filter (isCreateCallFor g') es = []
      ∧ List.filter (isGroupSkipFor g') es = [] := by
  constructor
  · apply List.filter_eq_nil_iff.mpr
    intro e he
    obtain ⟨g, j, err, rfl⟩ := h e he
    simp [isCreateCallFor]
  · apply List.filter_eq_nil_iff.mpr
    intro e he
    obtain ⟨g, j, err, rfl⟩ := h e he
    simp [isGroupSkipFor]

/-- C2: in the processing of one group, zero prepared variants yield zero
product-creation calls and exactly one skip log, while a non-empty
prepared list yields exactly one product-creation call and no skip log. -/
theorem handleGroup_one_create_iff_variants (O : WOracle) (g : Nat)
    (entry : (String × Int) × List Row) :
    countCreateCalls g (handleGroup O g entry).1
        = (if (handleRowsFrom (O.up g) g 0 entry.2).1.isEmpty then 0 else 1)
      ∧ countGroupSkips g (handleGroup O g entry).1
        = (if (handleRowsFrom (O.up g) g 0 entry.2).1.isEmpty then 1 else 0) := by
  rcases hrows : handleRowsFrom (O.up g) g 0 entry.2 with ⟨vd, res⟩
  have hres : ∀ e ∈ res, ∃ g0 j err, e = Event.rowSkip g0 j err := by
    intro e he
    obtain ⟨j', err, rfl⟩ := handleRows_events_rowSkips (O.up g) g 0 entry.2 e
      (by rw [hrows]; exact he)
    exact ⟨g, j', err, rfl⟩
  obtain ⟨hc, hs⟩ := rowSkips_no_create_no_skip g res hres
  by_cases hvd : vd.isEmpty
  · simp only [handleGroup, hrows, hvd, if_pos]
    constructor
    · simp [countCreateCalls, List.filter_append, hc, isCreateCallFor]
    · simp [countGroupSkips, List.filter_append, hs, isGroupSkipFor]
  · simp only [handleGroup, hrows, hvd, if_neg]
    rcases (create_product_from_template (O.create g) entry.1.2 vd entry.1.1).result
      with e | b
    all_goals rcases hfl :
        (create_product_from_template (O.create g) entry.1.2 vd entry.1.1).failLog
      with _ | t
    all_goals constructor
    all_goals simp [countCreateCalls, countGroupSkips, List.filter_append, hc, hs,
      isCreateCallFor, isGroupSkipFor]

/-- Witness for C6: rows 0 and 2 of a concrete input share the key
`("A", 1)` across an interposed row of another product, and the grouping
places them in one group. -/
theorem groupRows_same_key_iff_witness :
    ∃ p, p ∈ groupRows
        [⟨"A", 1, 10, "u", "v", Option.none, Option.none⟩,
         ⟨"B", 2, 20, "u", "v", Option.none, Option.none⟩,
         ⟨"A", 1, 11, "w", "x", Option.none, Option.none⟩]
      ∧ (⟨"A", 1, 10, "u", "v", Option.none, Option.none⟩ : Row) ∈ p.2
      ∧ (⟨"A", 1, 11, "w", "x", Option.none, Option.none⟩ : Row) ∈ p.2 :=
  (groupRows_same_key_iff _ _ _ (by decide) (by decide)).mp rfl

/-- A group whose creation POST returns a response (rather than raising)
never aborts the run: the submitter's `try` turns every
response-processing failure into the `None` sentinel. -/
theorem handleGroup_no_abort (O : WOracle) (g : Nat)
    (entry : (String × Int) × List Row) (resp : PResponse)
    (hc : O.create g = .ok resp) :
    (handleGroup O g entry).2 = Option.none := by
  rcases hrows : handleRowsFrom (O.up g) g 0 entry.2 with ⟨vd, res⟩
  by_cases hvd : vd.isEmpty
  · simp [handleGroup, hrows, hvd]
  · cases hrc : respCheck resp with
    | ok body =>
      simp [handleGroup, hrows, hvd, create_product_from_template, hc, hrc]
    | error e =>
      simp [handleGroup, hrows, hvd, create_product_from_template, hc, hrc]

/-- When no group's creation POST raises, the run is the concatenation of
the groups' traces and does not abort. -/
theorem processGroups_no_abort (O : WOracle)
    (hcreate : ∀ i, ∃ resp, O.create i = .ok resp) :
    ∀ (entries : List ((String × Int) × List Row)) (g0 : Nat),
      processGroups O g0 entries = ⟨groupEventsFrom O g0 entries, Option.none⟩ := by
  intro entries
  induction entries with
  | nil => intro g0; simp [processGroups, groupEventsFrom]
  | cons entry rest ih =>
    intro g0
    obtain ⟨resp, hc⟩ := hcreate g0
    have hab := handleGroup_no_abort O g0 entry resp hc
    rcases hh : handleGroup O g0 entry with ⟨es, ab⟩
    rw [hh] at hab
    simp at hab
    subst hab
    simp [processGroups, hh, ih (g0 + 1), groupEventsFrom]

/-- Every group's processing ends in a terminal event: either its
creation POST or its skip log. -/
theorem handleGroup_terminal (O : WOracle) (g : Nat)
    (entry : (String × Int) × List Row) :
    ∃ e ∈ (handleGroup O g entry).1,
      (isCreateCallFor g e || isGroupSkipFor g e) = true := by
  rcases hrows : handleRowsFrom (O.up g) g 0 entry.2 with ⟨vd, res⟩
  by_cases hvd : vd.isEmpty
  · refine ⟨Event.groupSkip g, ?_, by simp [isCreateCallFor, isGroupSkipFor]⟩
    simp [handleGroup, hrows, hvd]
  · refine ⟨Event.createCall g
      (create_product_from_template (O.create g) entry.1.2 vd entry.1.1).payload,
      ?_, by simp [isCreateCallFor]⟩
    simp only [handleGroup, hrows]
    rw [if_neg (by simpa using hvd)]
    rcases (create_product_from_template (O.create g) entry.1.2 vd entry.1.1).result
      with e | b
    all_goals rcases (create_product_from_template (O.create g) entry.1.2
        vd entry.1.1).failLog with _ | t
    all_goals simp

/-- An event of the `i`-th group's trace occurs in the concatenated
trace. -/
theorem mem_groupEventsFrom (O : WOracle) :
    ∀ (entries : List ((String × Int) × List Row)) (g0 i : Nat)
      (entry : (String × Int) × List Row) (x : Event),
      entries.get? i = some entry →
      x ∈ (handleGroup O (g0 + i) entry).1 →
      x ∈ groupEventsFrom O g0 entries := by
  intro entries
  induction entries with
  | nil => intro g0 i entry x h _; simp at h
  | cons e0 rest ih =>
    intro g0 i entry x h hx
    cases i with
    | zero =>
      simp at h
      subst h
      simp only [groupEventsFrom, List.mem_append]
      left
      simpa using hx
    | succ i' =>
      simp only [groupEventsFrom, List.mem_append]
      right
      apply ih (g0 + 1) i' entry x h
      have harith : g0 + 1 + i' = g0 + (i' + 1) := by omega
      rw [harith]
      exact hx

/-- In a run with no abort, every group index below the number of groups
has its terminal event in the trace. -/
theorem groupEventsFrom_terminated (O : WOracle)
    (entries : List ((String × Int) × List Row)) (g0 i : Nat)
    (hi : i < entries.length) :
    groupTerminated (g0 + i) (groupEventsFrom O g0 entries) = true := by
  obtain ⟨entry, hentry⟩ : ∃ entry, entries.get? i = some entry := by
    rw [List.get?_eq_get hi]
    exact ⟨_, rfl⟩
  obtain ⟨e, hmem, hp⟩ := handleGroup_terminal O (g0 + i) entry
  have hx := mem_groupEventsFrom O entries g0 i entry e hentry hmem
  exact List.any_eq_true.mpr ⟨e, hx, hp⟩

/-- Counterexample to C1 as stated: a concrete two-group run in which the
first group's creation POST raises `.exc 7`.  The exception is NOT turned
into the `None` sentinel: the run aborts with it, exactly one creation
call is ever made, and the second group (which exists: there are two
groups) is never processed — no terminal event for it appears. -/
theorem create_post_exception_aborts_run :
    (process_file
        ⟨fun _ _ _ _ => .ok 1,
         fun g => if g = 0 then .error (.exc 7) else .ok okResp⟩
        [⟨"A", 1, 10, "u", "v", Option.none, Option.none⟩,
         ⟨"B", 2, 11, "u", "v", Option.none, Option.none⟩]).aborted
        = some (.exc 7)
      ∧ groupTerminated 1
          (process_file
            ⟨fun _ _ _ _ => .ok 1,
             fun g => if g = 0 then .error (.exc 7) else .ok okResp⟩
            [⟨"A", 1, 10, "u", "v", Option.none, Option.none⟩,
             ⟨"B", 2, 11, "u", "v", Option.none, Option.none⟩]).events = false
      ∧ (groupRows
          [⟨"A", 1, 10, "u", "v", Option.none, Option.none⟩,
           ⟨"B", 2, 11, "u", "v", Option.none, Option.none⟩]).length = 2 := by
  decide

/-- C1 (amended): failures raised while processing the response of the
product-creation POST (non-2xx status or malformed body) are logged with
the raw response body and yield the `None` sentinel, and when every
group's POST returns a response the run never aborts and every group is
processed to its terminal event.  (An exception raised by the POST call
itself, by contrast, propagates: see the counterexample.) -/
theorem create_failure_logged_run_continues :
    (∀ (resp : PResponse) (template_id : Int) (vd : List Variant)
        (name : String) (e : PyErr),
        respCheck resp = .error e →
        create_product_from_template (.ok resp) template_id vd name
          = ⟨.ok Option.none, mkPayload template_id vd name, some resp.text⟩)
      ∧ (∀ (O : WOracle) (rows : List Row),
          (∀ i, ∃ resp, O.create i = .ok resp) →
          (process_file O rows).aborted = Option.none
            ∧ ∀ g, g < (groupRows rows).length →
                groupTerminated g (process_file O rows).events = true) := by
  constructor
  · intro resp tid vd name e he
    simp [create_product_from_template, he]
  · intro O rows hcreate
    have h := processGroups_no_abort O hcreate (groupRows rows) 0
    constructor
    · simp [process_file, h]
    · intro g hg
      have ht := groupEventsFrom_terminated O (groupRows rows) 0 g hg
      simpa [process_file, h] using ht

/-- Witness for the amended C1: a non-2xx response is logged with its raw
body `"boom"` and yields `None`, and a run whose POSTs all return
responses does not abort. -/
theorem create_failure_logged_run_continues_witness :
    create_product_from_template (.ok badResp) 1 [] "A"
        = ⟨.ok Option.none, mkPayload 1 [] "A", some "boom"⟩
      ∧ (process_file ⟨fun _ _ _ _ => .ok 1, fun _ => .ok badResp⟩
          [⟨"A", 1, 10, "u", "v", Option.none, Option.none⟩]).aborted
          = Option.none :=
  ⟨create_failure_logged_run_continues.1 badResp 1 [] "A" (.exc 9) rfl,
   (create_failure_logged_run_continues.2
      ⟨fun _ _ _ _ => .ok 1, fun _ => .ok badResp⟩
      [⟨"A", 1, 10, "u", "v", Option.none, Option.none⟩]
      (fun _ => ⟨badResp, rfl⟩)).1⟩

/-- A row whose variant construction fails contributes its row-skip log
to the group's per-row events. -/
theorem handleRows_mem_skip (O : Nat → RowOracle) (g : Nat) :
    ∀ (rows : List Row) (j0 j : Nat) (r : Row) (e : PyErr),
      rows.get? j = some r →
      buildVariant (O (j0 + j)) r = .error e →
      Event.rowSkip g (j0 + j) e ∈ (handleRowsFrom O g j0 rows).2 := by
  intro rows
  induction rows with
  | nil => intro j0 j r e h _; simp at h
  | cons r0 rest ih =>
    intro j0 j r e h herr
    cases j with
    | zero =>
      have hr : r0 = r := by simpa using h
      subst hr
      simp only [Nat.add_zero] at herr ⊢
      simp [handleRowsFrom, herr]
    | succ j' =>
      have h' : rest.get? j' = some r := h
      have herr' : buildVariant (O (j0 + 1 + j')) r = .error e := by
        have harith : j0 + 1 + j' = j0 + (j' + 1) := by omega
        rw [harith]; exact herr
      have hmem := ih (j0 + 1) j' r e h' herr'
      have harith : j0 + (j' + 1) = j0 + 1 + j' := by omega
      rw [harith]
      cases hb : buildVariant (O j0) r0 with
      | ok v => simpa [handleRowsFrom, hb] using hmem
      | error e0 =>
        simp only [handleRowsFrom, hb, List.mem_cons]
        exact Or.inr hmem

/-- A row whose variant construction succeeds contributes its variant to
the group's prepared list, independently of the other rows' outcomes. -/
theorem handleRows_mem_variant (O : Nat → RowOracle) (g : Nat) :
    ∀ (rows : List Row) (j0 j : Nat) (r : Row) (v : Variant),
      rows.get? j = some r →
      buildVariant (O (j0 + j)) r = .ok v →
      v ∈ (handleRowsFrom O g j0 rows).1 := by
  intro rows
  induction rows with
  | nil => intro j0 j r v h _; simp at h
  | cons r0 rest ih =>
    intro j0 j r v h hok
    cases j with
    | zero =>
      have hr : r0 = r := by simpa using h
      subst hr
      simp only [Nat.add_zero] at hok
      simp [handleRowsFrom, hok]
    | succ j' =>
      have h' : rest.get? j' = some r := h
      have hok' : buildVariant (O (j0 + 1 + j')) r = .ok v := by
        have harith : j0 + 1 + j' = j0 + (j' + 1) := by omega
        rw [harith]; exact hok
      have hmem := ih (j0 + 1) j' r v h' hok'
      cases hb : buildVariant (O j0) r0 with
      | ok v0 =>
        simp only [handleRowsFrom, hb, List.mem_cons]
        exact Or.inr hmem
      | error e0 => simpa [handleRowsFrom, hb] using hmem

/-- Every per-row event of a group appears in the group's full trace. -/
theorem handleGroup_mem_rowEvents (O : WOracle) (g : Nat)
    (entry : (String × Int) × List Row) (x : Event)
    (hx : x ∈ (handleRowsFrom (O.up g) g 0 entry.2).2) :
    x ∈ (handleGroup O g entry).1 := by
  rcases hrows : handleRowsFrom (O.up g) g 0 entry.2 with ⟨vd, res⟩
  rw [hrows] at hx
  by_cases hvd : vd.isEmpty
  · simp only [handleGroup, hrows]
    rw [if_pos (by simpa using hvd)]
    simp [hx]
  · simp only [handleGroup, hrows]
    rw [if_neg (by simpa using hvd)]
    rcases (create_product_from_template (O.create g) entry.1.2 vd entry.1.1).result
      with e | b
    all_goals rcases (create_product_from_template (O.create g) entry.1.2
        vd entry.1.1).failLog with _ | t
    all_goals simp [hx]

/-- C7: when a row's variant construction fails with any error (an upload
whose retries are exhausted included), the driver logs a row-skip for
exactly that row, the run (with every creation POST returning a response)
is never aborted, every group still reaches its terminal event, and every
other successfully built row of the same group still contributes its
variant. -/
theorem row_failure_skips_only_that_row (O : WOracle) (rows : List Row)
    (g j : Nat) (entry : (String × Int) × List Row) (r : Row) (e : PyErr)
    (hcreate : ∀ i, ∃ resp, O.create i = .ok resp)
    (hentry : (groupRows rows).get? g = some entry)
    (hrow : entry.2.get? j = some r)
    (herr : buildVariant (O.up g j) r = .error e) :
    Event.rowSkip g j e ∈ (process_file O rows).events
      ∧ (process_file O rows).aborted = Option.none
      ∧ (∀ g', g' < (groupRows rows).length →
          groupTerminated g' (process_file O rows).events = true)
      ∧ (∀ j' r' v, entry.2.get? j' = some r' →
          buildVariant (O.up g j') r' = .ok v →
          v ∈ (handleRowsFrom (O.up g) g 0 entry.2).1) := by
  have hrun := processGroups_no_abort O hcreate (groupRows rows) 0
  refine ⟨?_, ?_, ?_, ?_⟩
  · have hskip : Event.rowSkip g (0 + j) e ∈ (handleRowsFrom (O.up g) g 0 entry.2).2 :=
      handleRows_mem_skip (O.up g) g entry.2 0 j r e hrow (by simpa using herr)
    rw [Nat.zero_add] at hskip
    have hmem := handleGroup_mem_rowEvents O g entry _ hskip
    have hall := mem_groupEventsFrom O (groupRows rows) 0 g entry _ hentry
      (by simpa using hmem)
    simpa [process_file, hrun] using hall
  · simp [process_file, hrun]
  · intro g' hg'
    have ht := groupEventsFrom_terminated O (groupRows rows) 0 g' hg'
    simpa [process_file, hrun] using ht
  · intro j' r' v hr' hv
    exact handleRows_mem_variant (O.up g) g entry.2 0 j' r' v hr' (by simpa using hv)

/-- Witness for C7: in a concrete two-row group whose first row's front
upload always fails, the run logs the row-skip for row 0 and does not
abort. -/
theorem row_failure_skips_only_that_row_witness :
    Event.rowSkip 0 0 (.exc 1) ∈
        (process_file
          ⟨fun _ j => if j = 0 then fun _ _ => .error (.exc 1) else fun _ _ => .ok 1,
           fun _ => .ok okResp⟩
          [⟨"A", 1, 10, "u", "v", Option.none, Option.none⟩,
           ⟨"A", 1, 11, "u", "v", Option.none, Option.none⟩]).events
      ∧ (process_file
          ⟨fun _ j => if j = 0 then fun _ _ => .error (.exc 1) else fun _ _ => .ok 1,
           fun _ => .ok okResp⟩
          [⟨"A", 1, 10, "u", "v", Option.none, Option.none⟩,
           ⟨"A", 1, 11, "u", "v", Option.none, Option.none⟩]).aborted
          = Option.none := by
  have h := row_failure_skips_only_that_row
    ⟨fun _ j => if j = 0 then fun _ _ => .error (.exc 1) else fun _ _ => .ok 1,
     fun _ => .ok okResp⟩
    [⟨"A", 1, 10, "u", "v", Option.none, Option.none⟩,
     ⟨"A", 1, 11, "u", "v", Option.none, Option.none⟩]
    0 0
    (("A", 1), [⟨"A", 1, 10, "u", "v", Option.none, Option.none⟩,
                ⟨"A", 1, 11, "u", "v", Option.none, Option.none⟩])
    ⟨"A", 1, 10, "u", "v", Option.none, Option.none⟩ (.exc 1)
    (fun _ => ⟨okResp, rfl⟩) (by decide) (by decide) (by decide)
  exact ⟨h.1, h.2.1⟩

/-- A successfully built variant carries the hardcoded retail price, and
carries no label file id when the row's label URL is missing or blank. -/
theorem buildVariant_ok_fields (O : RowOracle) (row : Row) (v : Variant)
    (hv : buildVariant O row = .ok v) :
    v.retail_price = some "29.99"
      ∧ (labelPresent row = false → v.label_file_id = Option.none) := by
  unfold buildVariant at hv
  by_cases hlp : labelPresent row
  · rw [if_pos hlp] at hv
    split at hv
    · exact Except.noConfusion hv
    · split at hv
      · exact Except.noConfusion hv
      · rcases hl : (upload_image (O 2) (row.label.getD "") 3 5).result with e | lid
        · rw [hl] at hv
          exact Except.noConfusion hv
        · rw [hl] at hv
          have hveq := Except.ok.inj hv
          subst hveq
          exact ⟨rfl, fun h => absurd hlp (by simp [h])⟩
  · rw [if_neg hlp] at hv
    split at hv
    · exact Except.noConfusion hv
    · split at hv
      · exact Except.noConfusion hv
      · have hveq := Except.ok.inj hv
        subst hveq
        exact ⟨rfl, fun _ => rfl⟩

/-- Counterexample to C8 as stated: a concrete run on a single row whose
inside-label URL `"w"` is present and non-blank, and whose label upload
succeeds and returns the file id `0`.  The creation payload's files list
for that variant has only 2 entries and no `inside_label` entry, because
`if variant.get("label_file_id"):` treats the id `0` as falsy. -/
theorem label_id_zero_drops_inside_label :
    ((firstCreatePayload
        (process_file
          ⟨fun _ _ slot _ => if slot = 0 then .ok 1 else if slot = 1 then .ok 2 else .ok 0,
           fun _ => .ok okResp⟩
          [⟨"A", 1, 10, "u", "v", some "w", Option.none⟩]).events).map
        (fun p => ((payloadVariantFiles p 0).length,
                   hasFileType (payloadVariantFiles p 0) "inside_label")))
        = some (2, false)
      ∧ (⟨"A", 1, 10, "u", "v", some "w", Option.none⟩ : Row).label = some "w"
      ∧ ("w" : String) ≠ ""
      ∧ (upload_image (fun _ => .ok 0) "w" 3 5).result = .ok (some 0) := by
  decide

/-- C8 (amended): the variant's files list in the creation payload has 3
entries including an `inside_label` entry exactly when the obtained label
file id is truthy (present and nonzero — a 0 id is falsy in Python and
treated as absent), and 2 entries otherwise; a missing or blank label URL
yields no label file id and hence the 2-entry list. -/
theorem files_list_label_truthiness (O : RowOracle) (row : Row) (v : Variant)
    (hv : buildVariant O row = .ok v) :
    (mkFiles v).length = (if pyTruthyOptNat v.label_file_id then 3 else 2)
      ∧ hasFileType (mkFiles v) "inside_label" = pyTruthyOptNat v.label_file_id
      ∧ (labelPresent row = false → v.label_file_id = Option.none) := by
  refine ⟨?_, ?_, (buildVariant_ok_fields O row v hv).2⟩
  · by_cases h : pyTruthyOptNat v.label_file_id
    · simp [mkFiles, h]
    · simp [mkFiles, h]
  · by_cases h : pyTruthyOptNat v.label_file_id
    · simp only [mkFiles, h, if_pos]
      rfl
    · simp only [mkFiles, h, Bool.false_eq_true, if_neg, if_false]
      rfl

/-- Witness for the amended C8: a concrete row with no label URL builds a
variant with no label file id whose files list has exactly 2 entries and
no `inside_label`. -/
theorem files_list_label_truthiness_witness :
    (mkFiles ⟨10, some 1, some 2, Option.none, some "29.99"⟩).length = 2
      ∧ hasFileType (mkFiles ⟨10, some 1, some 2, Option.none, some "29.99"⟩)
          "inside_label" = false
      ∧ (⟨10, some 1, some 2, Option.none, some "29.99"⟩ : Variant).label_file_id
          = Option.none := by
  have h := files_list_label_truthiness
    (fun slot _ => if slot = 0 then .ok 1 else .ok 2)
    ⟨"A", 1, 10, "u", "v", Option.none, Option.none⟩
    ⟨10, some 1, some 2, Option.none, some "29.99"⟩
    (by decide)
  exact ⟨by simpa using h.1, by simpa using h.2.1, h.2.2 rfl⟩

/-- C9: the payload's `sync_product.name` is the constant
`"Test Product"` for every call, while the supplied product name appears
in the `external_id` (suffixed by the template id) and in the separate
`title` field; the variant list is built from the variant dicts alone. -/
theorem payload_name_constant (template_id : Int) (variant_data : List Variant)
    (product_name : String) :
    pyIndex2 (mkPayload template_id variant_data product_name)
        "sync_product" "name" = .ok (.str "Test Product")
      ∧ pyIndex2 (mkPayload template_id variant_data product_name)
          "sync_product" "external_id"
          = .ok (.str (product_name ++ "-" ++ toString template_id))
      ∧ pyIndex (mkPayload template_id variant_data product_name) "title"
          = .ok (.str product_name)
      ∧ pyIndex (mkPayload template_id variant_data product_name) "sync_variants"
          = .ok (.list (variant_data.map mkSyncVariant))
      ∧ pyIndex2 (mkPayload template_id variant_data product_name)
          "sync_product" "is_visible" = .ok (.bool true) :=
  ⟨rfl, rfl, rfl, rfl, rfl⟩

/-- Every variant prepared by the per-row loop carries the hardcoded
retail price. -/
theorem handleRows_prices (O : Nat → RowOracle) (g : Nat) :
    ∀ (j : Nat) (rows : List Row),
      ∀ v ∈ (handleRowsFrom O g j rows).1, v.retail_price = some "29.99" := by
  intro j rows
  induction rows generalizing j with
  | nil => intro v hv; simp [handleRowsFrom] at hv
  | cons r rest ih =>
    intro v hv
    cases hb : buildVariant (O j) r with
    | ok v0 =>
      simp only [handleRowsFrom, hb, List.mem_cons] at hv
      rcases hv with hv | hv
      · subst hv
        exact (buildVariant_ok_fields (O j) r v hb).1
      · exact ih (j + 1) v hv
    | error e =>
      simp only [handleRowsFrom, hb] at hv
      exact ih (j + 1) v hv

/-- A sync-variant dict built from a variant with the hardcoded price
passes the price check. -/
theorem svPriceOk_mkSyncVariant (v : Variant)
    (h : v.retail_price = some "29.99") :
    svPriceOk (mkSyncVariant v) = true := by
  have h0 : svPriceOk (mkSyncVariant v)
      = ((v.retail_price.getD "29.99") == "29.99") := rfl
  rw [h0, h]
  rfl

/-- A payload built from variants that all carry the hardcoded price
passes the payload-wide price check. -/
theorem payloadPricesOk_mkPayload (template_id : Int) (vd : List Variant)
    (name : String) (h : ∀ v ∈ vd, v.retail_price = some "29.99") :
    payloadPricesOk (mkPayload template_id vd name) = true := by
  have h0 : payloadPricesOk (mkPayload template_id vd name)
      = (vd.map mkSyncVariant).all svPriceOk := rfl
  rw [h0]
  apply List.all_eq_true.mpr
  intro x hx
  obtain ⟨v, hvm, rfl⟩ := List.mem_map.mp hx
  exact svPriceOk_mkSyncVariant v (h v hvm)

/-- The payload a creation call sends is always the built payload,
whatever the POST's outcome. -/
theorem create_payload_eq (postOut : Except PyErr PResponse) (template_id : Int)
    (vd : List Variant) (name : String) :
    (create_product_from_template postOut template_id vd name).payload
      = mkPayload template_id vd name := by
  cases postOut with
  | error e => rfl
  | ok resp =>
    cases hrc : respCheck resp with
    | ok body => simp [create_product_from_template, hrc]
    | error e => simp [create_product_from_template, hrc]

/-- Every event of one group's trace passes the price check. -/
theorem handleGroup_pricesOk (O : WOracle) (g : Nat)
    (entry : (String × Int) × List Row) :
    (handleGroup O g entry).1.all eventPricesOk = true := by
  rcases hrows : handleRowsFrom (O.up g) g 0 entry.2 with ⟨vd, res⟩
  have hres : res.all eventPricesOk = true := by
    apply List.all_eq_true.mpr
    intro e he
    obtain ⟨j', err, rfl⟩ := handleRows_events_rowSkips (O.up g) g 0 entry.2 e
      (by rw [hrows]; exact he)
    rfl
  by_cases hvd : vd.isEmpty
  · simp only [handleGroup, hrows]
    rw [if_pos (by simpa using hvd)]
    simp [List.all_append, hres, eventPricesOk]
  · have hvdp : ∀ v ∈ vd, v.retail_price = some "29.99" := by
      intro v hvm
      apply handleRows_prices (O.up g) g 0 entry.2 v
      rw [hrows]
      exact hvm
    have hpay : payloadPricesOk
        (create_product_from_template (O.create g) entry.1.2 vd entry.1.1).payload
        = true := by
      rw [create_payload_eq]
      exact payloadPricesOk_mkPayload entry.1.2 vd entry.1.1 hvdp
    simp only [handleGroup, hrows]
    rw [if_neg (by simpa using hvd)]
    rcases (create_product_from_template (O.create g) entry.1.2 vd entry.1.1).result
      with e | b
    all_goals rcases (create_product_from_template (O.create g) entry.1.2
        vd entry.1.1).failLog with _ | t
    all_goals simp [List.all_append, hres, hpay, eventPricesOk]

/-- Every event of a whole run passes the price check, aborted or not. -/
theorem processGroups_pricesOk (O : WOracle) :
    ∀ (entries : List ((String × Int) × List Row)) (g0 : Nat),
      (processGroups O g0 entries).events.all eventPricesOk = true := by
  intro entries
  induction entries with
  | nil => intro g0; rfl
  | cons entry rest ih =>
    intro g0
    rcases hh : handleGroup O g0 entry with ⟨es, ab⟩
    have hes : es.all eventPricesOk = true := by
      have h := handleGroup_pricesOk O g0 entry
      rw [hh] at h
      exact h
    cases ab with
    | some e => simp [processGroups, hh, hes]
    | none => simp [processGroups, hh, List.all_append, hes, ih (g0 + 1)]

/-- The per-row chain never reads the row's price column. -/
theorem buildVariant_ignores_price (O : RowOracle) (r : Row) (p : Option String) :
    buildVariant O { r with price := p } = buildVariant O r := rfl

/-- Rewriting every row's price column changes nothing in the per-row
loop's outcome. -/
theorem handleRows_ignores_price (O : Nat → RowOracle) (g : Nat) (p : Option String) :
    ∀ (j : Nat) (rows : List Row),
      handleRowsFrom O g j (rows.map (fun r => { r with price := p }))
        = handleRowsFrom O g j rows := by
  intro j rows
  induction rows generalizing j with
  | nil => rfl
  | cons r rest ih =>
    simp only [List.map_cons, handleRowsFrom, buildVariant_ignores_price, ih (j + 1)]

/-- Inserting a price-rewritten row into a price-rewritten accumulator is
the price-rewritten insertion. -/
theorem addRow_map_price (p : Option String) :
    ∀ (acc : List ((String × Int) × List Row)) (r : Row),
      addRow (acc.map (fun kg => (kg.1, kg.2.map (fun r => { r with price := p }))))
          { r with price := p }
        = (addRow acc r).map
            (fun kg => (kg.1, kg.2.map (fun r => { r with price := p }))) := by
  intro acc r
  induction acc with
  | nil => rfl
  | cons kg rest ih =>
    obtain ⟨k, g⟩ := kg
    simp only [List.map_cons, addRow]
    rw [show rowKey { r with price := p } = rowKey r from rfl]
    by_cases hk : k = rowKey r
    · rw [if_pos hk, if_pos hk]
      simp
    · rw [if_neg hk, if_neg hk, ih]
      simp

/-- Grouping commutes with rewriting every row's price column. -/
theorem groupRows_map_price (p : Option String) (rows : List Row) :
    groupRows (rows.map (fun r => { r with price := p }))
      = (groupRows rows).map
          (fun kg => (kg.1, kg.2.map (fun r => { r with price := p }))) := by
  suffices h : ∀ (rs : List Row) (acc : List ((String × Int) × List Row)),
      (rs.map (fun r => { r with price := p })).foldl addRow
          (acc.map (fun kg => (kg.1, kg.2.map (fun r => { r with price := p }))))
        = (rs.foldl addRow acc).map
            (fun kg => (kg.1, kg.2.map (fun r => { r with price := p }))) by
    have := h rows []
    simpa [groupRows] using this
  intro rs
  induction rs with
  | nil => intro acc; rfl
  | cons r rest ih =>
    intro acc
    simp only [List.map_cons, List.foldl_cons]
    rw [addRow_map_price p acc r]
    exact ih (addRow acc r)

/-- One group's processing ignores the price column of its rows. -/
theorem handleGroup_map_price (O : WOracle) (g : Nat) (p : Option String)
    (k : String × Int) (grows : List Row) :
    handleGroup O g (k, grows.map (fun r => { r with price := p }))
      = handleGroup O g (k, grows) := by
  simp only [handleGroup, handleRows_ignores_price]

/-- A whole run ignores the price column of the grouped rows. -/
theorem processGroups_map_price (O : WOracle) (p : Option String) :
    ∀ (entries : List ((String × Int) × List Row)) (g0 : Nat),
      processGroups O g0
          (entries.map (fun kg => (kg.1, kg.2.map (fun r => { r with price := p }))))
        = processGroups O g0 entries := by
  intro entries
  induction entries with
  | nil => intro g0; rfl
  | cons entry rest ih =>
    intro g0
    obtain ⟨k, grows⟩ := entry
    simp only [List.map_cons, processGroups,
      handleGroup_map_price O g0 p k grows, ih (g0 + 1)]

/-- C10: every creation payload submitted during any run carries the
constant retail price `"29.99"` on every variant, and rewriting the
rows' price column changes nothing observable: no retail-price value is
ever read from a row. -/
theorem retail_price_constant (O : WOracle) (rows : List Row) :
    allPricesOk (process_file O rows) = true
      ∧ ∀ p, process_file O (rows.map (fun r => { r with price := p }))
          = process_file O rows := by
  constructor
  · exact processGroups_pricesOk O (groupRows rows) 0
  · intro p
    unfold process_file
    rw [groupRows_map_price]
    exact processGroups_map_price O p (groupRows rows) 0
